import Mathlib

/-!
Verification of the globe-rendering program in src/index.js.

The geometric code (lat/lon projection, marker attenuation, tangent frames)
is embedded over the real numbers; the raster-mask sampling pass and the
dot-visibility test, which only use machine integers and exact halves, are
embedded computably over Int/Nat/Rat.
-/

namespace Globe

open Real

/-! ## Vectors (THREE.Vector3 as used by the program) -/

/-- A 3-component vector, mirroring THREE.Vector3 as used by the program. -/
@[ext] structure Vec3 where
  x : ℝ
  y : ℝ
  z : ℝ

/-- Componentwise subtraction, as Vector3.sub. -/
noncomputable def Vec3.sub (a b : Vec3) : Vec3 := ⟨a.x - b.x, a.y - b.y, a.z - b.z⟩

/-- Scalar multiplication, as Vector3.multiplyScalar. -/
noncomputable def Vec3.scale (c : ℝ) (v : Vec3) : Vec3 := ⟨c * v.x, c * v.y, c * v.z⟩

/-- Dot product, as Vector3.dot. -/
noncomputable def dot3 (a b : Vec3) : ℝ := a.x * b.x + a.y * b.y + a.z * b.z

/-- Cross product, as Vector3.crossVectors. -/
noncomputable def cross3 (a b : Vec3) : Vec3 :=
  ⟨a.y * b.z - a.z * b.y, a.z * b.x - a.x * b.z, a.x * b.y - a.y * b.x⟩

/-- Squared length, as Vector3.lengthSq. -/
noncomputable def normSq3 (v : Vec3) : ℝ := dot3 v v

/-- Euclidean length, as Vector3.length. -/
noncomputable def norm3 (v : Vec3) : ℝ := Real.sqrt (dot3 v v)

/-- Vector3.normalize: three.js divides by `length() || 1`, so the zero
vector is left unchanged. -/
noncomputable def normalize (v : Vec3) : Vec3 :=
  if norm3 v = 0 then v else Vec3.scale (1 / norm3 v) v

/-- THREE.MathUtils.degToRad: degrees times pi over 180. -/
noncomputable def degToRad (deg : ℝ) : ℝ := deg * (Real.pi / 180)

/-- THREE.MathUtils.clamp(value, min, max). -/
noncomputable def clamp (v lo hi : ℝ) : ℝ := max lo (min hi v)

/-- THREE.MathUtils.lerp(x, y, t) = (1 - t) * x + t * y. -/
noncomputable def lerp (x y t : ℝ) : ℝ := (1 - t) * x + t * y

/-! ## Projection (src/index.js lines 5-18 and 249-256) -/

/-- SPHERE_RADIUS constant from src/index.js line 5. -/
def SPHERE_RADIUS : ℝ := 20

/-- latLonToVector3 from src/index.js lines 7-18. -/
noncomputable def latLonToVector3 (latDeg lonDeg radius altitude : ℝ) : Vec3 :=
  let lat := degToRad latDeg
  let lon := degToRad lonDeg
  let phi := Real.pi / 2 - lat
  let theta := lon + Real.pi
  let r := radius + altitude
  ⟨-r * Real.sin phi * Real.cos theta,
   r * Real.cos phi,
   r * Real.sin phi * Real.sin theta⟩

/-- dotSphereRadius constant from buildDotsFromMap (src/index.js line 230). -/
def dotSphereRadius : ℝ := 20

/-- posFromLatLon from buildDotsFromMap (src/index.js lines 249-256). -/
noncomputable def posFromLatLon (lon lat : ℝ) : Vec3 :=
  let phi := (90 - lat) * (Real.pi / 180)
  let theta := (lon + 180) * (Real.pi / 180)
  ⟨-(dotSphereRadius * Real.sin phi * Real.cos theta),
   dotSphereRadius * Real.cos phi,
   dotSphereRadius * Real.sin phi * Real.sin theta⟩

/-! ## Raster-mask sampling (buildDotsFromMap, src/index.js lines 228-304) -/

/-- An RGBA pixel: the four consecutive bytes of one image pixel. -/
abbrev Pix : Type := Nat × Nat × Nat × Nat

/-- Flatten a pixel list into the flat byte array handed to readImageData. -/
def flattenPixels : List Pix → List Nat
  | [] => []
  | (r, g, b, a) :: t => r :: g :: b :: a :: flattenPixels t

/-- The activeLatLon object: latitude rows of recorded longitudes.  The
JS object holds possibly-absent arrays; absent and empty rows behave
identically everywhere they are read, so rows default to the empty list. -/
abbrev AMap : Type := Int → List Int

/-- The empty activeLatLon object. -/
def emptyLatLon : AMap := fun _ => []

/-- activeLatLon[lat].push(lon). -/
def pushLon (m : AMap) (lat lon : Int) : AMap :=
  fun l => if l = lat then m l ++ [lon] else m l

/-- The dark-pixel test of readImageData: r, g, b all strictly below 80. -/
def isDark (p : Pix) : Prop := p.1 < 80 ∧ p.2.1 < 80 ∧ p.2.2.1 < 80

instance (p : Pix) : Decidable (isDark p) := by unfold isDark; infer_instance

/-- The loop of readImageData (src/index.js lines 233-239) over the flat
byte array, carrying the current lon and lat.  A trailing fragment shorter
than one pixel reads undefined channels, which fail the `< 80` test; a
3-byte fragment still has its r, g, b channels read. -/
def readImageGo : List Nat → Int → Int → AMap → AMap
  | r :: g :: b :: _ :: rest, lon, lat, m =>
    let m' := if r < 80 ∧ g < 80 ∧ b < 80 then pushLon m lat lon else m
    if lon = 180 then
      if lat - 1 < -90 then m' else readImageGo rest (-179) (lat - 1) m'
    else readImageGo rest (lon + 1) lat m'
  | [r, g, b], lon, lat, m =>
    if r < 80 ∧ g < 80 ∧ b < 80 then pushLon m lat lon else m
  | _, _, _, m => m

/-- readImageData (src/index.js lines 232-240): one pass over the image
bytes starting at lon = -180, lat = 90 with an empty activeLatLon. -/
def readImageData (data : List Nat) : AMap := readImageGo data (-180) 90 emptyLatLon

/-- The same loop expressed over whole pixels (proof helper). -/
def readImageGoPix : List Pix → Int → Int → AMap → AMap
  | [], _, _, m => m
  | p :: rest, lon, lat, m =>
    let m' := if isDark p then pushLon m lat lon else m
    if lon = 180 then
      if lat - 1 < -90 then m' else readImageGoPix rest (-179) (lat - 1) m'
    else readImageGoPix rest (lon + 1) lat m'

/-- The sequence of (lon, lat) states at which the loop processes its
first n pixels, starting from state (lon, lat); it stops early at the
`lat < -90` break. -/
def statesFrom (lon lat : Int) : Nat → List (Int × Int)
  | 0 => []
  | n + 1 =>
    (lon, lat) ::
      (if lon = 180 then
        (if lat - 1 < -90 then [] else statesFrom (-179) (lat - 1) n)
      else statesFrom (lon + 1) lat n)

/-- The loop's state-update: advance lon, wrapping to the next row (which
restarts at lon -179, not -180, because the for-loop increment still runs
after the reset to -180). -/
def stepState (s : Int × Int) : Int × Int :=
  if s.1 = 180 then (-179, s.2 - 1) else (s.1 + 1, s.2)

/-- Number of pixels the pass can process before the `lat < -90` break:
361 for the first latitude row plus 360 for each of the 180 later rows. -/
def totalPixels : Nat := 65161

/-- Closed form for the (lon, lat) state at which the k-th pixel is
processed: the first row spans lon -180..180 at lat 90; each later row
spans lon -179..180, with lat decreasing by one per row. -/
def stateAt (k : Nat) : Int × Int :=
  if k < 361 then ((k : Int) - 180, 90)
  else ((((k - 361) % 360 : Nat) : Int) - 179, 89 - (((k - 361) / 360 : Nat) : Int))

/-- The (lat, lon) pairs that the sampling pass assigns to some pixel. -/
def validPos (lat lon : Int) : Prop :=
  (lat = 90 ∧ -180 ≤ lon ∧ lon ≤ 180) ∨
  (-90 ≤ lat ∧ lat ≤ 89 ∧ -179 ≤ lon ∧ lon ≤ 180)

instance (lat lon : Int) : Decidable (validPos lat lon) := by
  unfold validPos; infer_instance

/-- Index of the pixel that the pass assigns to a given (lat, lon). -/
def pixelIndex (lat lon : Int) : Nat :=
  if lat = 90 then (lon + 180).toNat
  else 361 + 360 * (89 - lat).toNat + (lon + 179).toNat

/-- The JS reduce over a non-empty row in visibleAt: the recorded
longitude closest to lon, earliest wins ties. -/
def reduceClosest (lon : ℚ) : Int → List Int → Int
  | p, [] => p
  | p, c :: rest =>
    reduceClosest lon (if |(c : ℚ) - lon| < |(p : ℚ) - lon| then c else p) rest

/-- visibleAt (src/index.js lines 242-247): false on an absent or empty
row, else true iff the closest recorded longitude is within 0.5. -/
def visibleAt (A : AMap) (lon : ℚ) (lat : Int) : Bool :=
  match A lat with
  | [] => false
  | p :: rest => decide (|lon - (reduceClosest lon p rest : ℚ)| < 0.5)

/-- The JS Array.prototype.reduce without initial value: it throws a
TypeError on an empty array, so the fallible embedding returns none there. -/
def reduceJS (lon : ℚ) : List Int → Option Int
  | [] => none
  | p :: rest => some (reduceClosest lon p rest)

/-- visibleAt with its fallible reduce made explicit: none models the
TypeError that reduce would raise on an empty row. -/
def visibleAtJS (A : AMap) (lon : ℚ) (lat : Int) : Option Bool :=
  if (A lat).isEmpty then some false
  else (reduceJS lon (A lat)).map fun c => decide (|lon - (c : ℚ)| < 0.5)

/-- dotDensity constant from placeDots (src/index.js line 268). -/
noncomputable def dotDensity : ℝ := 2.5

/-- Dots placed on one latitude ring (placeDots, src/index.js lines
271-274): max(1, floor(circumference * dotDensity)) with circumference =
cos(|lat| deg) * dotSphereRadius * pi * 2. -/
noncomputable def dotsForLat (lat : Int) : Nat :=
  let radius := Real.cos (|(lat : ℝ)| * (Real.pi / 180)) * dotSphereRadius
  let circumference := radius * Real.pi * 2
  (max 1 ⌊circumference * dotDensity⌋).toNat

/-- Candidate longitude of the x-th dot on a latitude ring
(src/index.js line 276): -180 + x * 360 / dotsForLat. -/
noncomputable def lonOfDot (lat : Int) (x : Nat) : ℚ :=
  -180 + (x : ℚ) * 360 / (dotsForLat lat : ℚ)

/-- The dot-creation decision for one candidate (src/index.js lines
275-287): a dot mesh at posFromLatLon(lon, lat) iff visibleAt(lon, lat). -/
noncomputable def mkDot (A : AMap) (lat : Int) (x : Nat) : Option Vec3 :=
  if visibleAt A (lonOfDot lat x) lat
  then some (posFromLatLon ((lonOfDot lat x : ℚ) : ℝ) (lat : ℝ))
  else none

/-- All dots created on one latitude ring. -/
noncomputable def rowDots (A : AMap) (lat : Int) : List Vec3 :=
  (List.range (dotsForLat lat)).filterMap (mkDot A lat)

/-- placeDots (src/index.js lines 267-289): latitudes 90 down to -89. -/
noncomputable def placeDots (A : AMap) : List Vec3 :=
  ((List.range 180).map (fun i => rowDots A (90 - (i : Int)))).flatten

/-! ## Markers (addFlatMarker and attenuateMarkerScaleAndVisibility,
src/index.js lines 20-115) -/

/-- The east-vector construction of addFlatMarker (src/index.js lines
34-36): cross the up reference (0,1,0) with the outward normal, falling
back to up reference (0,0,1) when the result is shorter than 1e-6 in
squared length. -/
noncomputable def eastPre (n : Vec3) : Vec3 :=
  let e0 := cross3 ⟨0, 1, 0⟩ n
  if normSq3 e0 < 1e-6 then cross3 ⟨0, 0, 1⟩ n else e0

/-- The tangent frame (east, north, normal) built by addFlatMarker
(src/index.js lines 32-39). -/
noncomputable def tangentFrame (pos : Vec3) : Vec3 × Vec3 × Vec3 :=
  let n := normalize pos
  let east := normalize (eastPre n)
  let north := normalize (cross3 n east)
  (east, north, n)

/-- A marker plane: its transform, its material state (fallback color,
optional texture map), and its userData (outward, baseSize, aspect). -/
structure MarkerObj where
  position : Vec3
  outward : Option Vec3
  baseSize : ℝ
  aspect : ℝ
  scale : ℝ × ℝ × ℝ
  visible : Bool
  matColor : Nat
  matMap : Option Nat
  matDoubleSided : Bool
  basis : Vec3 × Vec3 × Vec3
  rollApplied : ℝ

/-- The options record taken by addFlatMarker (src/index.js lines 23-30). -/
structure MarkerParams where
  lat : ℝ
  lon : ℝ
  iconUrl : Nat
  size : ℝ
  altitude : ℝ
  doubleSided : Bool
  rollDeg : ℝ

/-- The scene state addFlatMarker touches: the markers group and the
console log. -/
structure World where
  markersGroup : List MarkerObj
  logs : List Nat

/-- addFlatMarker (src/index.js lines 23-89) up to the asynchronous
texture load: build the tangent frame, create the white fallback plane
with provisional scale (size, size, 1), and add it to markersGroup. -/
noncomputable def addFlatMarker (p : MarkerParams) (w : World) : World × MarkerObj :=
  let pos := latLonToVector3 p.lat p.lon SPHERE_RADIUS p.altitude
  let n := normalize pos
  let plane : MarkerObj := {
    position := pos
    outward := some n
    baseSize := p.size
    aspect := 1
    scale := (p.size, p.size, 1)
    visible := true
    matColor := 0xffffff
    matMap := none
    matDoubleSided := p.doubleSided
    basis := tangentFrame pos
    rollApplied := if p.rollDeg = 0 then 0 else degToRad p.rollDeg }
  ({ w with markersGroup := w.markersGroup ++ [plane] }, plane)

/-- A loaded icon texture (only its image dimensions matter here). -/
structure Texture where
  width : Nat
  height : Nat

/-- The texture-load success callback (src/index.js lines 66-80): attach
the map, clear the tint, and rescale by the image aspect ratio. -/
noncomputable def onTextureLoad (tex : Texture) (texId : Nat) (m : MarkerObj) : MarkerObj :=
  let ar := if 0 < tex.width ∧ 0 < tex.height then (tex.width : ℝ) / (tex.height : ℝ) else 1
  { m with matMap := some texId, matColor := 0xffffff, aspect := ar,
           scale := (m.baseSize * ar, m.baseSize, 1) }

/-- The texture-load error callback (src/index.js lines 82-85): log the
failure to the console and change nothing else. -/
def onTextureError (iconUrl : Nat) (w : World) : World :=
  { w with logs := w.logs ++ [iconUrl] }

/-- baseMesh.position: the globe center, the origin (src/index.js line 95). -/
noncomputable def baseMeshPos : Vec3 := ⟨0, 0, 0⟩

/-- minScale constant of attenuateMarkerScaleAndVisibility (line 98). -/
noncomputable def minScale : ℝ := 0.55

/-- The outward normal used per marker: userData.outward, falling back to
the normalized position offset from the center (src/index.js line 101). -/
noncomputable def markerNormal (center : Vec3) (m : MarkerObj) : Vec3 :=
  match m.outward with
  | some n => n
  | none => normalize (m.position.sub center)

/-- The per-marker body of attenuateMarkerScaleAndVisibility
(src/index.js lines 100-114): hide when the normal faces away from the
camera, else rescale by lerp(minScale, 1, clamp(dot, 0, 1)); baseSize and
aspect fall back to 1 when falsy. -/
noncomputable def attenStep (view center : Vec3) (m : MarkerObj) : MarkerObj :=
  let normal := markerNormal center m
  let d := dot3 normal view
  if 0 < d then
    let t := clamp d 0 1
    let s := lerp minScale 1 t
    let base := if m.baseSize = 0 then 1 else m.baseSize
    let ar := if m.aspect = 0 then 1 else m.aspect
    { m with visible := true, scale := (base * ar * s, base * s, 1) }
  else { m with visible := false }

/-- attenuateMarkerScaleAndVisibility (src/index.js lines 92-115). -/
noncomputable def attenuateMarkerScaleAndVisibility
    (camPos : Vec3) (ms : List MarkerObj) : List MarkerObj :=
  ms.map (attenStep (normalize (camPos.sub baseMeshPos)) baseMeshPos)

/-- The scale factor as the spec states it: s = 0.55 + (1.0 - 0.55) *
clamp(d, 0, 1). -/
noncomputable def sOf (d : ℝ) : ℝ := 0.55 + (1.0 - 0.55) * clamp d 0 1

/-! ## Animation loop (animate, src/index.js lines 325-333) -/

/-- twinkleTime constant (src/index.js line 155). -/
noncomputable def twinkleTime : ℝ := 0.027

/-- The uniforms of one dot material: u_time plus the two palette colors. -/
structure DotMaterial where
  u_time : ℝ
  u_colorA : Nat
  u_colorB : Nat

/-- The uniform nudge of one frame: m.uniforms.u_time.value += twinkleTime
for every material in the materials list (src/index.js line 326). -/
noncomputable def animateStep (tw : ℝ) (ms : List DotMaterial) : List DotMaterial :=
  ms.map fun m => { m with u_time := m.u_time + tw }

attribute [ext] DotMaterial

/-- The per-frame mutable state the animate callback touches. -/
structure FrameState where
  materials : List DotMaterial
  markers : List MarkerObj

/-- One run of the animate callback (src/index.js lines 325-333): nudge
every u_time by twinkleTime, then recompute marker scale/visibility. -/
noncomputable def animate (camPos : Vec3) (st : FrameState) : FrameState :=
  { materials := animateStep twinkleTime st.materials,
    markers := attenuateMarkerScaleAndVisibility camPos st.markers }

/-! ## Sample objects used by witnesses -/

/-- A sample camera position on the +z axis. -/
noncomputable def sampleCam : Vec3 := ⟨0, 0, 1⟩

/-- A sample marker facing the +z axis. -/
noncomputable def sampleMarker : MarkerObj :=
  ⟨⟨0, 0, 1⟩, some ⟨0, 0, 1⟩, 2, 3, (0, 0, 0), false, 0xffffff, none, false,
   (⟨1, 0, 0⟩, ⟨0, 1, 0⟩, ⟨0, 0, 1⟩), 0⟩

/-- The sample marker after one attenuation pass with sampleCam. -/
noncomputable def sampleOut : MarkerObj :=
  attenStep (normalize (sampleCam.sub baseMeshPos)) baseMeshPos sampleMarker

/-! ## Lemmas and claim theorems -/

/-- The squared distance of the projected point from the origin is the
square of radius plus altitude. -/
lemma dot3_latLonToVector3 (latDeg lonDeg radius altitude : ℝ) :
    dot3 (latLonToVector3 latDeg lonDeg radius altitude)
         (latLonToVector3 latDeg lonDeg radius altitude)
      = (radius + altitude) ^ 2 := by
  have hphi := Real.sin_sq_add_cos_sq (Real.pi / 2 - degToRad latDeg)
  have hth := Real.sin_sq_add_cos_sq (degToRad lonDeg + Real.pi)
  simp only [latLonToVector3, dot3]
  linear_combination
    ((radius + altitude) ^ 2 * Real.sin (Real.pi / 2 - degToRad latDeg) ^ 2) * hth
      + (radius + altitude) ^ 2 * hphi

/-- The projected point lies at distance radius + altitude from the origin
whenever that sum is nonnegative. -/
lemma norm3_latLonToVector3 (latDeg lonDeg radius altitude : ℝ)
    (h : 0 ≤ radius + altitude) :
    norm3 (latLonToVector3 latDeg lonDeg radius altitude) = radius + altitude := by
  rw [norm3, dot3_latLonToVector3]
  exact Real.sqrt_sq h

/-- C1: latLonToVector3 computes the spherical projection formula
(x, y, z) = (-R sin(phi) cos(theta), R cos(phi), R sin(phi) sin(theta))
with phi = pi/2 - lat, theta = lon + pi, R = radius + altitude (lat, lon in
radians), and consequently the returned point lies at distance R from the
origin (for nonnegative R). -/
theorem latLonToVector3_spec (latDeg lonDeg radius altitude : ℝ) :
    latLonToVector3 latDeg lonDeg radius altitude
      = ⟨-((radius + altitude) * Real.sin (Real.pi / 2 - degToRad latDeg)
             * Real.cos (degToRad lonDeg + Real.pi)),
         (radius + altitude) * Real.cos (Real.pi / 2 - degToRad latDeg),
         (radius + altitude) * Real.sin (Real.pi / 2 - degToRad latDeg)
             * Real.sin (degToRad lonDeg + Real.pi)⟩
      ∧ (0 ≤ radius + altitude →
          norm3 (latLonToVector3 latDeg lonDeg radius altitude) = radius + altitude) := by
  constructor
  · simp only [latLonToVector3]
    ext <;> ring
  · exact norm3_latLonToVector3 latDeg lonDeg radius altitude

/-- Witness for C1 at latDeg = 0, lonDeg = 0, radius = 20, altitude = 0. -/
theorem latLonToVector3_spec_witness :
    (0 : ℝ) ≤ 20 + 0 ∧ norm3 (latLonToVector3 0 0 20 0) = 20 + 0 :=
  ⟨by norm_num, (latLonToVector3_spec 0 0 20 0).2 (by norm_num)⟩

/-- C8: the two independent projection implementations agree: posFromLatLon
(used for dots) equals latLonToVector3 at radius 20, altitude 0 (used for
markers) at every latitude and longitude. -/
theorem posFromLatLon_eq_latLonToVector3 (lat lon : ℝ) :
    posFromLatLon lon lat = latLonToVector3 lat lon 20 0 := by
  have hphi : (90 - lat) * (Real.pi / 180) = Real.pi / 2 - degToRad lat := by
    unfold degToRad; ring
  have hth : (lon + 180) * (Real.pi / 180) = degToRad lon + Real.pi := by
    unfold degToRad; ring
  simp only [posFromLatLon, latLonToVector3, dotSphereRadius, hphi, hth]
  ext <;> ring

/-- Membership in an activeLatLon row after a conditional push. -/
lemma mem_ite_pushLon (c : Prop) [Decidable c] (m : AMap) (lat₀ lon₀ lat lon : Int) :
    lon ∈ (if c then pushLon m lat₀ lon₀ else m) lat ↔
      lon ∈ m lat ∨ (c ∧ lat = lat₀ ∧ lon = lon₀) := by
  split_ifs with hc
  · unfold pushLon
    by_cases h : lat = lat₀
    · subst h; simp [hc]
    · simp [h, hc]
  · tauto

/-- Splitting a bounded existential at its first index. -/
lemma exists_lt_succ_iff (n : Nat) (P : Nat → Prop) :
    (∃ k, k < n + 1 ∧ P k) ↔ P 0 ∨ ∃ k, k < n ∧ P (k + 1) := by
  constructor
  · rintro ⟨k, hk, hp⟩
    cases k with
    | zero => exact Or.inl hp
    | succ k => exact Or.inr ⟨k, by omega, hp⟩
  · rintro (h | ⟨k, hk, hp⟩)
    · exact ⟨0, by omega, h⟩
    · exact ⟨k + 1, by omega, hp⟩

/-- The flat-byte loop agrees with the whole-pixel loop on well-formed
(4-byte-aligned) image data. -/
lemma readImageGo_flatten (ps : List Pix) : ∀ (lon lat : Int) (m : AMap),
    readImageGo (flattenPixels ps) lon lat m = readImageGoPix ps lon lat m := by
  induction ps with
  | nil => intro lon lat m; rfl
  | cons p t ih =>
    intro lon lat m
    obtain ⟨r, g, b, a⟩ := p
    simp only [flattenPixels, readImageGo, readImageGoPix, isDark]
    split_ifs <;> first | rfl | apply ih

/-- The state trace never exceeds the pixel count. -/
lemma length_statesFrom_le (n : Nat) : ∀ (lon lat : Int),
    (statesFrom lon lat n).length ≤ n := by
  induction n with
  | zero => intro lon lat; simp [statesFrom]
  | succ n ih =>
    intro lon lat
    simp only [statesFrom]
    split_ifs <;> simp <;> first | omega | exact ih _ _

/-- A longitude is recorded by the sampling loop iff some processed pixel
is dark at the matching loop state. -/
lemma mem_readImageGoPix (ps : List Pix) : ∀ (lon₀ lat₀ : Int) (m : AMap) (lat lon : Int),
    lon ∈ readImageGoPix ps lon₀ lat₀ m lat ↔
      lon ∈ m lat ∨
      ∃ k, k < (statesFrom lon₀ lat₀ ps.length).length ∧
        (statesFrom lon₀ lat₀ ps.length).getD k (0, 0) = (lon, lat) ∧
        isDark (ps.getD k (255, 255, 255, 255)) := by
  induction ps with
  | nil =>
    intro lon₀ lat₀ m lat lon
    simp [readImageGoPix, statesFrom]
  | cons p t ih =>
    intro lon₀ lat₀ m lat lon
    simp only [readImageGoPix, List.length_cons]
    have hhead : ∀ Q : Prop,
        (lon ∈ (if isDark p then pushLon m lat₀ lon₀ else m) lat ∨ Q) ↔
          (lon ∈ m lat ∨ (isDark p ∧ lat = lat₀ ∧ lon = lon₀)) ∨ Q := by
      intro Q
      rw [mem_ite_pushLon]
    by_cases h180 : lon₀ = 180
    · by_cases hbr : lat₀ - 1 < -90
      · rw [if_pos h180, if_pos hbr]
        simp only [statesFrom, if_pos h180, if_pos hbr]
        rw [mem_ite_pushLon]
        constructor
        · rintro (h | ⟨hd, hlat, hlon⟩)
          · exact Or.inl h
          · exact Or.inr ⟨0, by simp, by simp [hlat, hlon], by simpa using hd⟩
        · rintro (h | ⟨k, hk, hs, hd⟩)
          · exact Or.inl h
          · have hk0 : k = 0 := by simpa using hk
            subst hk0
            simp only [List.getD_cons_zero, Prod.mk.injEq] at hs
            exact Or.inr ⟨by simpa using hd, hs.2.symm, hs.1.symm⟩
      · rw [if_pos h180, if_neg hbr]
        rw [ih (-179) (lat₀ - 1) _ lat lon, hhead]
        simp only [statesFrom, if_pos h180, if_neg hbr, List.length_cons]
        rw [exists_lt_succ_iff]
        simp only [List.getD_cons_zero, List.getD_cons_succ, Prod.mk.injEq]
        constructor
        · rintro ((h | ⟨hd, hlat, hlon⟩) | h)
          · exact Or.inl h
          · exact Or.inr (Or.inl ⟨⟨hlon.symm, hlat.symm⟩, by simpa using hd⟩)
          · exact Or.inr (Or.inr h)
        · rintro (h | (⟨⟨hlon, hlat⟩, hd⟩ | h))
          · exact Or.inl (Or.inl h)
          · exact Or.inl (Or.inr ⟨by simpa using hd, hlat.symm, hlon.symm⟩)
          · exact Or.inr h
    · rw [if_neg h180]
      rw [ih (lon₀ + 1) lat₀ _ lat lon, hhead]
      simp only [statesFrom, if_neg h180, List.length_cons]
      rw [exists_lt_succ_iff]
      simp only [List.getD_cons_zero, List.getD_cons_succ, Prod.mk.injEq]
      constructor
      · rintro ((h | ⟨hd, hlat, hlon⟩) | h)
        · exact Or.inl h
        · exact Or.inr (Or.inl ⟨⟨hlon.symm, hlat.symm⟩, by simpa using hd⟩)
        · exact Or.inr (Or.inr h)
      · rintro (h | (⟨⟨hlon, hlat⟩, hd⟩ | h))
        · exact Or.inl (Or.inl h)
        · exact Or.inl (Or.inr ⟨by simpa using hd, hlat.symm, hlon.symm⟩)
        · exact Or.inr h

/-- The pass starts at lon -180, lat 90. -/
lemma stateAt_zero : stateAt 0 = (-180, 90) := by decide

/-- The last processed pixel sits at lon 180, lat -90. -/
lemma stateAt_last : stateAt (totalPixels - 1) = (180, -90) := by decide

/-- The loop state of the next pixel follows from the current one by
stepState, and the break never fires before the last pixel. -/
lemma stateAt_succ (k : Nat) (h : k + 1 < totalPixels) :
    stateAt (k + 1) = stepState (stateAt k) ∧
    ¬((stateAt k).1 = 180 ∧ (stateAt k).2 - 1 < -90) := by
  unfold totalPixels at h
  unfold stateAt stepState
  rcases Nat.lt_or_ge k 360 with h1 | h1
  · have hk : k < 361 := by omega
    have hk1 : k + 1 < 361 := by omega
    rw [if_pos hk, if_pos hk1]
    have hne : ¬(((k : Int) - 180, (90 : Int)).1 = 180) := by simp; omega
    rw [if_neg hne]
    refine ⟨?_, by norm_num⟩
    simp only [Prod.mk.injEq]
    constructor
    · push_cast; ring
    · trivial
  · rcases Nat.eq_or_lt_of_le h1 with h2 | h2
    · have hk : k < 361 := by omega
      have hk1 : ¬(k + 1 < 361) := by omega
      rw [if_pos hk, if_neg hk1]
      have h360 : k = 360 := by omega
      subst h360
      norm_num
    · have hk : ¬(k < 361) := by omega
      have hk1 : ¬(k + 1 < 361) := by omega
      rw [if_neg hk, if_neg hk1]
      rcases Nat.lt_or_ge ((k - 361) % 360) 359 with h3 | h3
      · have hne : ¬(((((k - 361) % 360 : Nat) : Int) - 179,
            (89 : Int) - (((k - 361) / 360 : Nat) : Int)).1 = 180) := by
          simp; omega
        rw [if_neg hne]
        refine ⟨?_, by simp; omega⟩
        simp only [Prod.mk.injEq]
        constructor <;> push_cast <;> omega
      · have heq : ((((k - 361) % 360 : Nat) : Int) - 179,
            (89 : Int) - (((k - 361) / 360 : Nat) : Int)).1 = 180 := by
          simp
          omega
        rw [if_pos heq]
        refine ⟨?_, ?_⟩
        · simp only [Prod.mk.injEq]
          constructor <;> push_cast <;> omega
        · simp
          intro h4
          omega

/-- One unfolding of the state trace through stepState. -/
lemma statesFrom_succ (lon lat : Int) (n : Nat) :
    statesFrom lon lat (n + 1) =
      (lon, lat) ::
        (if lon = 180 ∧ lat - 1 < -90 then []
         else statesFrom (stepState (lon, lat)).1 (stepState (lon, lat)).2 n) := by
  simp only [statesFrom, stepState]
  by_cases h1 : lon = 180
  · by_cases h2 : lat - 1 < -90 <;> simp [h1, h2]
  · simp [h1]

/-- Closed form of the state trace from the k-th state. -/
lemma statesFrom_eq_map (n : Nat) : ∀ k, k < totalPixels →
    statesFrom (stateAt k).1 (stateAt k).2 n
      = (List.range (min n (totalPixels - k))).map (fun j => stateAt (k + j)) := by
  induction n with
  | zero => intro k hk; simp [statesFrom]
  | succ n ih =>
    intro k hk
    rw [statesFrom_succ]
    by_cases hend : k = totalPixels - 1
    · subst hend
      have hl : stateAt (totalPixels - 1) = (180, -90) := stateAt_last
      have hmin : min (n + 1) (totalPixels - (totalPixels - 1)) = 1 := by
        unfold totalPixels; omega
      rw [hmin]
      norm_num [hl, List.range_succ]
    · have hk1 : k + 1 < totalPixels := by unfold totalPixels at *; omega
      obtain ⟨hstep, hnb⟩ := stateAt_succ k hk1
      rw [if_neg hnb]
      have hss : stepState ((stateAt k).1, (stateAt k).2) = stateAt (k + 1) := by
        rw [← hstep]
      rw [hss, ih (k + 1) hk1]
      have hmin : min (n + 1) (totalPixels - k) = min n (totalPixels - (k + 1)) + 1 := by
        unfold totalPixels at *; omega
      rw [hmin, List.range_succ_eq_map, List.map_cons, List.map_map, Nat.add_zero]
      congr 1
      apply List.map_congr_left
      intro j hj
      simp only [Function.comp_apply]
      congr 1
      omega

/-- Closed form of the full state trace: the pass processes
min n totalPixels pixels, the k-th at state stateAt k. -/
lemma statesFrom_start (n : Nat) :
    statesFrom (-180) 90 n = (List.range (min n totalPixels)).map stateAt := by
  have h0 := statesFrom_eq_map n 0 (by unfold totalPixels; omega)
  rw [stateAt_zero] at h0
  simpa using h0

/-- The closed-form state enumeration is inverse to pixelIndex. -/
lemma stateAt_eq_iff (k : Nat) (hk : k < totalPixels) (lat lon : Int) :
    stateAt k = (lon, lat) ↔ validPos lat lon ∧ pixelIndex lat lon = k := by
  unfold totalPixels at hk
  unfold stateAt validPos pixelIndex
  split_ifs <;> simp only [Prod.mk.injEq] <;> omega

/-- Every valid position indexes a pixel inside the pass. -/
lemma pixelIndex_lt (lat lon : Int) (h : validPos lat lon) :
    pixelIndex lat lon < totalPixels := by
  unfold validPos pixelIndex totalPixels at *
  split_ifs <;> omega

/-- getD through map over a range. -/
lemma getD_map_range {α : Type} (M k : Nat) (f : Nat → α) (d : α) (h : k < M) :
    ((List.range M).map f).getD k d = f k := by
  have hlen : k < ((List.range M).map f).length := by simpa using h
  rw [List.getD_eq_getElem _ _ hlen]
  simp

/-- Pixels after the break are never read: the loop result only depends
on the processed prefix. -/
lemma readImageGoPix_break (ps : List Pix) : ∀ (qs : List Pix) (lon lat : Int) (m : AMap),
    (statesFrom lon lat (ps.length + qs.length)).length ≤ ps.length →
    readImageGoPix (ps ++ qs) lon lat m = readImageGoPix ps lon lat m := by
  induction ps with
  | nil =>
    intro qs lon lat m h
    cases qs with
    | nil => rfl
    | cons q t =>
      exfalso
      simp only [List.length_nil, List.length_cons, Nat.zero_add, statesFrom] at h
      simp at h
  | cons p t ih =>
    intro qs lon lat m h
    have hlen : (p :: t).length + qs.length = (t.length + qs.length) + 1 := by
      simp; omega
    rw [hlen] at h
    simp only [List.cons_append, readImageGoPix]
    by_cases h180 : lon = 180
    · by_cases hbr : lat - 1 < -90
      · rw [if_pos h180, if_pos hbr, if_pos h180, if_pos hbr]
      · rw [if_pos h180, if_neg hbr, if_pos h180, if_neg hbr]
        apply ih
        simp only [statesFrom, if_pos h180, if_neg hbr, List.length_cons] at h
        omega
    · rw [if_neg h180, if_neg h180]
      apply ih
      simp only [statesFrom, if_neg h180, List.length_cons] at h
      omega

/-- Full characterization of a recorded longitude: it is recorded iff its
(lat, lon) is a position the pass visits, its pixel exists in the data,
and that pixel is dark. -/
lemma mem_readImageData_iff (ps : List Pix) (lat lon : Int) :
    lon ∈ readImageData (flattenPixels ps) lat ↔
      validPos lat lon ∧ pixelIndex lat lon < min ps.length totalPixels ∧
        isDark (ps.getD (pixelIndex lat lon) (255, 255, 255, 255)) := by
  unfold readImageData
  rw [readImageGo_flatten, mem_readImageGoPix]
  simp only [emptyLatLon, List.not_mem_nil, false_or]
  rw [statesFrom_start]
  have hlen : ((List.range (min ps.length totalPixels)).map stateAt).length
      = min ps.length totalPixels := by simp
  rw [hlen]
  constructor
  · rintro ⟨k, hk, hs, hd⟩
    rw [getD_map_range _ _ _ _ hk] at hs
    have hkt : k < totalPixels := by omega
    obtain ⟨hv, hidx⟩ := (stateAt_eq_iff k hkt lat lon).mp hs
    exact ⟨hv, hidx ▸ hk, hidx ▸ hd⟩
  · rintro ⟨hv, hk, hd⟩
    refine ⟨pixelIndex lat lon, hk, ?_, hd⟩
    rw [getD_map_range _ _ _ _ hk]
    exact (stateAt_eq_iff _ (pixelIndex_lt lat lon hv) lat lon).mpr ⟨hv, rfl⟩

/-- The reduce in visibleAt returns an element of the row that minimizes
the distance to lon. -/
lemma reduceClosest_spec (lon : ℚ) : ∀ (rest : List Int) (p : Int),
    reduceClosest lon p rest ∈ p :: rest ∧
    ∀ c ∈ p :: rest, |(reduceClosest lon p rest : ℚ) - lon| ≤ |(c : ℚ) - lon| := by
  intro rest
  induction rest with
  | nil => intro p; simp [reduceClosest]
  | cons c t ih =>
    intro p
    simp only [reduceClosest]
    by_cases hlt : |(c : ℚ) - lon| < |(p : ℚ) - lon|
    · rw [if_pos hlt]
      obtain ⟨hmem, hmin⟩ := ih c
      constructor
      · rcases List.mem_cons.mp hmem with h | h
        · rw [h]; exact List.mem_cons_of_mem _ (List.mem_cons_self _ _)
        · exact List.mem_cons_of_mem _ (List.mem_cons_of_mem _ h)
      · intro c' hc'
        rcases List.mem_cons.mp hc' with h | h
        · subst h
          exact le_trans (hmin _ (List.mem_cons_self _ _)) (le_of_lt hlt)
        · exact hmin _ h
    · rw [if_neg hlt]
      obtain ⟨hmem, hmin⟩ := ih p
      constructor
      · rcases List.mem_cons.mp hmem with h | h
        · rw [h]; exact List.mem_cons_self _ _
        · exact List.mem_cons_of_mem _ (List.mem_cons_of_mem _ h)
      · intro c' hc'
        rcases List.mem_cons.mp hc' with h | h
        · subst h
          exact hmin _ (List.mem_cons_self _ _)
        · rcases List.mem_cons.mp h with h2 | h2
          · subst h2
            exact le_trans (hmin _ (List.mem_cons_self _ _)) (not_lt.mp hlt)
          · exact hmin _ (List.mem_cons_of_mem _ h2)

/-- C2: dot placement via the raster mask: a longitude is recorded in
activeLatLon[lat] iff the pixel the pass reads at that (lat, lon) has r, g,
b all strictly below 80; visibleAt is true iff the row is non-empty and
its recorded longitude closest to lon is strictly within 0.5; and placeDots
creates a dot mesh at posFromLatLon(lon, lat) for a candidate iff
visibleAt holds there. -/
theorem dot_placement_spec (ps : List Pix) (A : AMap) (lat lon : Int)
    (lonq : ℚ) (x : Nat) :
    (lon ∈ readImageData (flattenPixels ps) lat ↔
      validPos lat lon ∧ pixelIndex lat lon < min ps.length totalPixels ∧
        isDark (ps.getD (pixelIndex lat lon) (255, 255, 255, 255))) ∧
    (visibleAt A lonq lat = true ↔
      A lat ≠ [] ∧ ∃ c ∈ A lat,
        (∀ c' ∈ A lat, |(c : ℚ) - lonq| ≤ |(c' : ℚ) - lonq|) ∧
        |lonq - (c : ℚ)| < 0.5) ∧
    (mkDot A lat x = some (posFromLatLon ((lonOfDot lat x : ℚ) : ℝ) (lat : ℝ)) ↔
      visibleAt A (lonOfDot lat x) lat = true) := by
  refine ⟨mem_readImageData_iff ps lat lon, ?_, ?_⟩
  · cases hrow : A lat with
    | nil => simp [visibleAt, hrow]
    | cons p rest =>
      simp only [visibleAt, hrow, decide_eq_true_eq]
      obtain ⟨hmem, hmin⟩ := reduceClosest_spec lonq rest p
      constructor
      · intro hlt
        exact ⟨by simp, reduceClosest lonq p rest, hmem, hmin, hlt⟩
      · rintro ⟨-, c, hc, hcmin, hlt⟩
        have h1 : |(reduceClosest lonq p rest : ℚ) - lonq| ≤ |(c : ℚ) - lonq| :=
          hmin c hc
        calc |lonq - (reduceClosest lonq p rest : ℚ)|
            = |(reduceClosest lonq p rest : ℚ) - lonq| := abs_sub_comm _ _
          _ ≤ |(c : ℚ) - lonq| := h1
          _ = |lonq - (c : ℚ)| := abs_sub_comm _ _
          _ < 0.5 := hlt
  · cases hv : visibleAt A (lonOfDot lat x) lat with
    | false => simp [mkDot, hv]
    | true => simp [mkDot, hv]

set_option maxRecDepth 8000 in
/-- C5 counterexample: on an image of 362 dark pixels, latitude row 89
records longitude -179 only: the second row does not start at -180, so not
every row spans the full range -180..180. -/
theorem readImageData_second_row_counterexample :
    (readImageData (flattenPixels (List.replicate 362 ((0, 0, 0, 0) : Pix)))) 89
        = [-179] ∧
    (-180 : Int) ∉
      (readImageData (flattenPixels (List.replicate 362 ((0, 0, 0, 0) : Pix)))) 89 ∧
    (-180 : Int) ∈
      (readImageData (flattenPixels (List.replicate 362 ((0, 0, 0, 0) : Pix)))) 90 := by
  refine ⟨?_, ?_, ?_⟩ <;> decide

/-- C5 (amended): the pass reads pixels once, in order: pixel k is
assigned the (lon, lat) given by stateAt (first row -180..180 at lat 90,
then rows -179..180 with lat decreasing), at most totalPixels = 65161
pixels are processed, and pixels past the break are ignored. -/
theorem readImageData_pass_structure (n : Nat) (ps qs : List Pix) :
    statesFrom (-180) 90 n = (List.range (min n totalPixels)).map stateAt ∧
    (ps.length = totalPixels →
      readImageData (flattenPixels (ps ++ qs)) = readImageData (flattenPixels ps)) := by
  refine ⟨statesFrom_start n, fun hlen => ?_⟩
  unfold readImageData
  rw [readImageGo_flatten, readImageGo_flatten]
  apply readImageGoPix_break
  rw [statesFrom_start]
  simp only [List.length_map, List.length_range]
  rw [hlen]
  exact le_of_eq (Nat.min_eq_right (by omega))

/-- Witness for C5 (amended): a full 65161-pixel image followed by one
extra pixel yields the same activeLatLon as the image alone. -/
theorem readImageData_pass_structure_witness :
    readImageData
        (flattenPixels (List.replicate totalPixels ((0, 0, 0, 0) : Pix)
          ++ [((0, 0, 0, 0) : Pix)]))
      = readImageData (flattenPixels (List.replicate totalPixels ((0, 0, 0, 0) : Pix))) :=
  (readImageData_pass_structure 0 (List.replicate totalPixels ((0, 0, 0, 0) : Pix))
      [((0, 0, 0, 0) : Pix)]).2 (by simp)

/-- C10: visibleAt is total: on an absent or empty row it returns false
immediately, and the fallible version (where reduce on an empty array is a
TypeError, i.e. none) always returns some value, never the error. -/
theorem visibleAt_total (A : AMap) (lonq : ℚ) (lat : Int) :
    visibleAtJS A lonq lat = some (visibleAt A lonq lat) ∧
    (A lat = [] → visibleAt A lonq lat = false) := by
  cases hrow : A lat with
  | nil => simp [visibleAtJS, visibleAt, hrow]
  | cons p rest =>
    refine ⟨?_, fun h => absurd (hrow ▸ h) (List.cons_ne_nil p rest)⟩
    simp [visibleAtJS, visibleAt, reduceJS, hrow]

/-- Witness for C10 on the empty activeLatLon at lon 0, lat 0. -/
theorem visibleAt_total_witness :
    visibleAtJS emptyLatLon 0 0 = some (visibleAt emptyLatLon 0 0) ∧
    visibleAt emptyLatLon 0 0 = false :=
  ⟨(visibleAt_total emptyLatLon 0 0).1, (visibleAt_total emptyLatLon 0 0).2 rfl⟩

/-- getD through map, below the length. -/
lemma getD_map_of_lt {α β : Type} (f : α → β) (l : List α) (i : Nat)
    (h : i < l.length) (da : α) (db : β) :
    (l.map f).getD i db = f (l.getD i da) := by
  rw [List.getD_eq_getElem _ _ (by simpa using h), List.getD_eq_getElem _ _ h]
  simp

/-- The uniform nudge keeps the materials list length. -/
lemma iterate_animateStep_length (tw : ℝ) (ms : List DotMaterial) (n : Nat) :
    ((animateStep tw)^[n] ms).length = ms.length := by
  induction n with
  | zero => rfl
  | succ n ih => rw [Function.iterate_succ_apply']; simp [animateStep, ih]

/-- After n nudges, each material has gained tw * n on u_time and kept
its colors. -/
lemma iterate_animateStep_getD (tw : ℝ) (ms : List DotMaterial) (n i : Nat)
    (d : DotMaterial) (hi : i < ms.length) :
    ((animateStep tw)^[n] ms).getD i d
      = { ms.getD i d with u_time := (ms.getD i d).u_time + tw * n } := by
  induction n with
  | zero =>
    simp only [Function.iterate_zero, id_eq, Nat.cast_zero]
    ext <;> simp
  | succ n ih =>
    rw [Function.iterate_succ_apply']
    have hlen : i < ((animateStep tw)^[n] ms).length := by
      rw [iterate_animateStep_length]; exact hi
    rw [show animateStep tw ((animateStep tw)^[n] ms)
          = ((animateStep tw)^[n] ms).map
              (fun m => { m with u_time := m.u_time + tw }) from rfl]
    rw [getD_map_of_lt _ _ _ hlen d, ih]
    ext
    · simp; ring
    · simp
    · simp

/-- The material list evolves under animate exactly by the uniform nudge. -/
lemma animate_iterate_materials (camPos : Vec3) (st : FrameState) (n : Nat) :
    ((animate camPos)^[n] st).materials = (animateStep twinkleTime)^[n] st.materials := by
  induction n with
  | zero => rfl
  | succ n ih =>
    rw [Function.iterate_succ_apply', Function.iterate_succ_apply']
    simp [animate, ih]

/-- C7: each frame adds twinkleTime = 0.027 to every material's u_time and
changes no other uniform, so after n frames u_time equals its seed plus
0.027 * n; with the nudge set to 0 the materials are untouched. -/
theorem animate_uniform_nudge (camPos : Vec3) (st : FrameState) (n i : Nat)
    (d : DotMaterial) (hi : i < st.materials.length) :
    (((animate camPos)^[n] st).materials.getD i d).u_time
        = (st.materials.getD i d).u_time + twinkleTime * n ∧
    (((animate camPos)^[n] st).materials.getD i d).u_colorA
        = (st.materials.getD i d).u_colorA ∧
    (((animate camPos)^[n] st).materials.getD i d).u_colorB
        = (st.materials.getD i d).u_colorB ∧
    twinkleTime = 0.027 ∧
    (∀ ms : List DotMaterial, animateStep 0 ms = ms) := by
  rw [animate_iterate_materials, iterate_animateStep_getD _ _ _ _ _ hi]
  refine ⟨rfl, rfl, rfl, rfl, fun ms => ?_⟩
  unfold animateStep
  have hf : (fun m : DotMaterial => { m with u_time := m.u_time + 0 }) = id := by
    funext m
    ext <;> simp
  rw [hf, List.map_id]

/-- Witness for C7: a one-material list after two frames. -/
theorem animate_uniform_nudge_witness :
    (((animate sampleCam)^[2] (FrameState.mk [DotMaterial.mk 1 2 3] [])).materials.getD 0
        (DotMaterial.mk 0 0 0)).u_time
      = ((FrameState.mk [DotMaterial.mk 1 2 3] []).materials.getD 0
          (DotMaterial.mk 0 0 0)).u_time + twinkleTime * 2 :=
  (animate_uniform_nudge sampleCam (FrameState.mk [DotMaterial.mk 1 2 3] []) 2 0
      (DotMaterial.mk 0 0 0) (by simp)).1

/-- The attenuation step leaves everything but visible and scale alone. -/
lemma attenStep_fields (view center : Vec3) (m : MarkerObj) :
    (attenStep view center m).outward = m.outward ∧
    (attenStep view center m).position = m.position ∧
    (attenStep view center m).baseSize = m.baseSize ∧
    (attenStep view center m).aspect = m.aspect := by
  by_cases hd : 0 < dot3 (markerNormal center m) view
  · simp only [attenStep]
    rw [if_pos hd]
    exact ⟨rfl, rfl, rfl, rfl⟩
  · simp only [attenStep]
    rw [if_neg hd]
    exact ⟨rfl, rfl, rfl, rfl⟩

/-- The marker normal is unchanged by the attenuation step. -/
lemma markerNormal_attenStep (view center : Vec3) (m : MarkerObj) :
    markerNormal center (attenStep view center m) = markerNormal center m := by
  obtain ⟨h1, h2, -, -⟩ := attenStep_fields view center m
  unfold markerNormal
  rw [h1, h2]

/-- C3: after every attenuation pass (run once per animation frame by
animate), a marker is visible iff the dot product of its outward normal
with the normalized direction from the globe center to the camera is
strictly positive; back-hemisphere markers are hidden. -/
theorem marker_visibility_iff (camPos : Vec3) (ms : List MarkerObj) (m : MarkerObj)
    (hm : m ∈ attenuateMarkerScaleAndVisibility camPos ms) :
    m.visible = true ↔
      0 < dot3 (markerNormal baseMeshPos m) (normalize (camPos.sub baseMeshPos)) := by
  unfold attenuateMarkerScaleAndVisibility at hm
  obtain ⟨m₀, hm₀, rfl⟩ := List.mem_map.mp hm
  rw [markerNormal_attenStep]
  unfold attenStep
  by_cases hd :
      0 < dot3 (markerNormal baseMeshPos m₀) (normalize (camPos.sub baseMeshPos))
  · rw [if_pos hd]
    simpa using hd
  · rw [if_neg hd]
    simpa using hd

/-- Witness for C3: the sample marker after one pass with the sample
camera. -/
theorem marker_visibility_iff_witness :
    sampleOut.visible = true ↔
      0 < dot3 (markerNormal baseMeshPos sampleOut)
            (normalize (sampleCam.sub baseMeshPos)) :=
  marker_visibility_iff sampleCam [sampleMarker] sampleOut
    (by simp [attenuateMarkerScaleAndVisibility, sampleOut])

/-- The code's lerp-based scale factor is the spec's closed formula. -/
lemma lerp_minScale_eq_sOf (d : ℝ) : lerp minScale 1 (clamp d 0 1) = sOf d := by
  unfold lerp minScale sOf
  ring

/-- The scale factor lies in the closed interval from 0.55 to 1. -/
lemma sOf_bounds (d : ℝ) : 0.55 ≤ sOf d ∧ sOf d ≤ 1 := by
  unfold sOf clamp
  have h0 : (0 : ℝ) ≤ max 0 (min 1 d) := le_max_left _ _
  have h1 : max 0 (min 1 d) ≤ 1 := max_le (by norm_num) (min_le_left _ _)
  constructor <;> nlinarith

/-- The scale factor is monotone in the view-angle dot product. -/
lemma sOf_mono (d e : ℝ) (h : d ≤ e) : sOf d ≤ sOf e := by
  unfold sOf clamp
  have hcl : max 0 (min 1 d) ≤ max 0 (min 1 e) :=
    max_le_max le_rfl (min_le_min le_rfl h)
  nlinarith

/-- C4: every marker left visible by the attenuation pass has its scale
set to (baseSize * aspect * s, baseSize * s, 1) with s = 0.55 +
(1 - 0.55) * clamp(d, 0, 1); s always lies in [0.55, 1] and is monotone
non-decreasing in d.  (baseSize and aspect are taken nonzero; the code
replaces falsy values by 1.) -/
theorem marker_scale_attenuation (camPos : Vec3) (ms : List MarkerObj) (m : MarkerObj)
    (hm : m ∈ attenuateMarkerScaleAndVisibility camPos ms)
    (hv : m.visible = true) (hb : m.baseSize ≠ 0) (ha : m.aspect ≠ 0) :
    m.scale = (m.baseSize * m.aspect
        * sOf (dot3 (markerNormal baseMeshPos m) (normalize (camPos.sub baseMeshPos))),
      m.baseSize
        * sOf (dot3 (markerNormal baseMeshPos m) (normalize (camPos.sub baseMeshPos))),
      1) ∧
    (∀ d : ℝ, 0.55 ≤ sOf d ∧ sOf d ≤ 1) ∧
    (∀ d e : ℝ, d ≤ e → sOf d ≤ sOf e) := by
  refine ⟨?_, sOf_bounds, sOf_mono⟩
  unfold attenuateMarkerScaleAndVisibility at hm
  obtain ⟨m₀, hm₀, rfl⟩ := List.mem_map.mp hm
  obtain ⟨-, -, hbs, has⟩ :=
    attenStep_fields (normalize (camPos.sub baseMeshPos)) baseMeshPos m₀
  rw [markerNormal_attenStep, hbs, has]
  rw [hbs] at hb
  rw [has] at ha
  unfold attenStep at hv ⊢
  by_cases hd :
      0 < dot3 (markerNormal baseMeshPos m₀) (normalize (camPos.sub baseMeshPos))
  · rw [if_pos hd] at hv ⊢
    simp only [if_neg hb, if_neg ha]
    rw [lerp_minScale_eq_sOf]
  · rw [if_neg hd] at hv
    cases hv

/-- The sample marker is visible after the pass: its outward normal
points straight at the sample camera. -/
lemma sampleOut_visible : sampleOut.visible = true := by
  have hsub : sampleCam.sub baseMeshPos = sampleCam := by
    unfold sampleCam baseMeshPos Vec3.sub
    ext <;> norm_num
  have hdot : dot3 (⟨0, 0, 1⟩ : Vec3) (⟨0, 0, 1⟩ : Vec3) = 1 := by
    unfold dot3; norm_num
  have hview : normalize (sampleCam.sub baseMeshPos) = ⟨0, 0, 1⟩ := by
    rw [hsub]
    unfold sampleCam normalize norm3
    rw [hdot, Real.sqrt_one]
    rw [if_neg one_ne_zero]
    unfold Vec3.scale
    ext <;> norm_num
  have hnm : markerNormal baseMeshPos sampleMarker = ⟨0, 0, 1⟩ := rfl
  have hd : (0 : ℝ) <
      dot3 (markerNormal baseMeshPos sampleMarker)
        (normalize (sampleCam.sub baseMeshPos)) := by
    rw [hnm, hview, hdot]
    norm_num
  unfold sampleOut attenStep
  rw [if_pos hd]

/-- The sample marker keeps its nonzero baseSize 2 and aspect 3. -/
lemma sampleOut_base_aspect : sampleOut.baseSize = 2 ∧ sampleOut.aspect = 3 := by
  obtain ⟨-, -, h1, h2⟩ :=
    attenStep_fields (normalize (sampleCam.sub baseMeshPos)) baseMeshPos sampleMarker
  unfold sampleOut
  rw [h1, h2]
  exact ⟨rfl, rfl⟩

/-- Witness for C4 at the sample marker and camera. -/
theorem marker_scale_attenuation_witness :
    sampleOut.scale = (sampleOut.baseSize * sampleOut.aspect
        * sOf (dot3 (markerNormal baseMeshPos sampleOut)
            (normalize (sampleCam.sub baseMeshPos))),
      sampleOut.baseSize
        * sOf (dot3 (markerNormal baseMeshPos sampleOut)
            (normalize (sampleCam.sub baseMeshPos))),
      1) ∧
    (∀ d : ℝ, 0.55 ≤ sOf d ∧ sOf d ≤ 1) ∧
    (∀ d e : ℝ, d ≤ e → sOf d ≤ sOf e) :=
  marker_scale_attenuation sampleCam [sampleMarker] sampleOut
    (by simp [attenuateMarkerScaleAndVisibility, sampleOut])
    sampleOut_visible
    (by rw [sampleOut_base_aspect.1]; norm_num)
    (by rw [sampleOut_base_aspect.2]; norm_num)

/-- C6: when the marker icon texture fails to load, the error callback
only appends a console error entry: the plane created by addFlatMarker is
still in markersGroup with its fallback white material and no texture map,
and its position, tangent-frame orientation, userData (outward, baseSize,
aspect) and provisional scale are exactly as addFlatMarker set them. -/
theorem texture_error_fallback (p : MarkerParams) (w : World) :
    let r := addFlatMarker p w
    let w2 := onTextureError p.iconUrl r.1
    w2.markersGroup = r.1.markersGroup ∧
    w2.logs = r.1.logs ++ [p.iconUrl] ∧
    r.2 ∈ w2.markersGroup ∧
    r.2.matMap = none ∧
    r.2.matColor = 0xffffff ∧
    r.2.position = latLonToVector3 p.lat p.lon SPHERE_RADIUS p.altitude ∧
    r.2.outward = some (normalize (latLonToVector3 p.lat p.lon SPHERE_RADIUS p.altitude)) ∧
    r.2.basis = tangentFrame (latLonToVector3 p.lat p.lon SPHERE_RADIUS p.altitude) ∧
    r.2.baseSize = p.size ∧
    r.2.aspect = 1 ∧
    r.2.scale = (p.size, p.size, 1) ∧
    r.2.visible = true := by
  refine ⟨rfl, rfl, ?_, rfl, rfl, rfl, rfl, rfl, rfl, rfl, rfl, rfl⟩
  show _ ∈ w.markersGroup ++ [_]
  exact List.mem_append_right _ (List.mem_singleton.mpr rfl)

/-- Cross products are orthogonal to their left factor. -/
lemma cross3_dot_left (a b : Vec3) : dot3 (cross3 a b) a = 0 := by
  unfold cross3 dot3; ring

/-- Cross products are orthogonal to their right factor. -/
lemma cross3_dot_right (a b : Vec3) : dot3 (cross3 a b) b = 0 := by
  unfold cross3 dot3; ring

/-- Lagrange identity for the squared length of a cross product. -/
lemma dot3_cross3_self (a b : Vec3) :
    dot3 (cross3 a b) (cross3 a b) = dot3 a a * dot3 b b - (dot3 a b) ^ 2 := by
  unfold cross3 dot3; ring

/-- Dot products are symmetric. -/
lemma dot3_comm (a b : Vec3) : dot3 a b = dot3 b a := by
  unfold dot3; ring

/-- Scaling factors out of the left of a dot product. -/
lemma dot3_scale_left (c : ℝ) (v w : Vec3) :
    dot3 (Vec3.scale c v) w = c * dot3 v w := by
  unfold Vec3.scale dot3; ring

/-- Scaling factors out of the right of a dot product. -/
lemma dot3_scale_right (c : ℝ) (v w : Vec3) :
    dot3 w (Vec3.scale c v) = c * dot3 w v := by
  unfold Vec3.scale dot3; ring

/-- Squared lengths are nonnegative. -/
lemma dot3_self_nonneg (v : Vec3) : 0 ≤ dot3 v v := by
  unfold dot3
  nlinarith [mul_self_nonneg v.x, mul_self_nonneg v.y, mul_self_nonneg v.z]

/-- The length vanishes exactly with the squared length. -/
lemma norm3_eq_zero_iff (v : Vec3) : norm3 v = 0 ↔ dot3 v v = 0 := by
  unfold norm3
  rw [Real.sqrt_eq_zero (dot3_self_nonneg v)]

/-- Normalizing a vector of nonzero length yields a unit vector. -/
lemma dot3_normalize_self (v : Vec3) (h : dot3 v v ≠ 0) :
    dot3 (normalize v) (normalize v) = 1 := by
  unfold normalize
  rw [if_neg (fun h0 => h ((norm3_eq_zero_iff v).mp h0))]
  rw [dot3_scale_left, dot3_scale_right]
  unfold norm3
  have hpos : 0 < dot3 v v := lt_of_le_of_ne (dot3_self_nonneg v) (Ne.symm h)
  have hs : Real.sqrt (dot3 v v) ^ 2 = dot3 v v := Real.sq_sqrt (le_of_lt hpos)
  calc 1 / Real.sqrt (dot3 v v) * (1 / Real.sqrt (dot3 v v) * dot3 v v)
      = dot3 v v / Real.sqrt (dot3 v v) ^ 2 := by ring
    _ = dot3 v v / dot3 v v := by rw [hs]
    _ = 1 := div_self h

/-- Normalizing preserves orthogonality. -/
lemma dot3_normalize_left (v w : Vec3) (h : dot3 v w = 0) :
    dot3 (normalize v) w = 0 := by
  unfold normalize
  split_ifs
  · exact h
  · rw [dot3_scale_left, h, mul_zero]

/-- A vector of positive squared length is nonzero. -/
lemma vec_ne_zero_of_dot3_pos (v : Vec3) (h : 0 < dot3 v v) : v ≠ ⟨0, 0, 0⟩ := by
  intro h0
  rw [h0] at h
  unfold dot3 at h
  norm_num at h

/-- For a unit outward normal the east vector (with its near-pole
fallback) has positive squared length. -/
lemma eastPre_dot_pos (n : Vec3) (hn : dot3 n n = 1) :
    0 < dot3 (eastPre n) (eastPre n) := by
  unfold dot3 at hn
  unfold eastPre normSq3 cross3 dot3
  dsimp only
  split_ifs with hsmall
  · dsimp only
    nlinarith [hsmall, hn, mul_self_nonneg n.x, mul_self_nonneg n.y, mul_self_nonneg n.z]
  · dsimp only
    nlinarith [not_lt.mp hsmall]

/-- The east vector (before normalization) is orthogonal to the normal. -/
lemma eastPre_dot_normal (n : Vec3) : dot3 (eastPre n) n = 0 := by
  unfold eastPre
  dsimp only
  split_ifs
  · exact cross3_dot_right _ _
  · exact cross3_dot_right _ _

/-- C9: the tangent frame built by addFlatMarker is well-defined at every
latitude and longitude (poles included) for a marker above the globe
center: when the first cross product with up reference (0,1,0) has squared
length below 1e-6, the fallback up reference (0,0,1) yields a nonzero east
vector; both normalize calls act on nonzero vectors, and (east, north,
normal) is an orthonormal basis. -/
theorem tangentFrame_well_defined (lat lon alt : ℝ) (h : 0 < SPHERE_RADIUS + alt) :
    let pos := latLonToVector3 lat lon SPHERE_RADIUS alt
    let n := normalize pos
    (normSq3 (cross3 ⟨0, 1, 0⟩ n) < 1e-6 →
      eastPre n = cross3 ⟨0, 0, 1⟩ n ∧ cross3 ⟨0, 0, 1⟩ n ≠ ⟨0, 0, 0⟩) ∧
    eastPre n ≠ ⟨0, 0, 0⟩ ∧
    cross3 n (normalize (eastPre n)) ≠ ⟨0, 0, 0⟩ ∧
    dot3 (tangentFrame pos).1 (tangentFrame pos).1 = 1 ∧
    dot3 (tangentFrame pos).2.1 (tangentFrame pos).2.1 = 1 ∧
    dot3 (tangentFrame pos).2.2 (tangentFrame pos).2.2 = 1 ∧
    dot3 (tangentFrame pos).1 (tangentFrame pos).2.2 = 0 ∧
    dot3 (tangentFrame pos).2.1 (tangentFrame pos).2.2 = 0 ∧
    dot3 (tangentFrame pos).1 (tangentFrame pos).2.1 = 0 := by
  intro pos n
  have hr : (0 : ℝ) ≤ SPHERE_RADIUS + alt := le_of_lt h
  have hnorm : norm3 pos = SPHERE_RADIUS + alt := norm3_latLonToVector3 lat lon _ alt hr
  have hd0 : dot3 pos pos ≠ 0 := by
    intro h0
    have : norm3 pos = 0 := (norm3_eq_zero_iff pos).mpr h0
    rw [hnorm] at this
    linarith
  have hn : dot3 n n = 1 := dot3_normalize_self pos hd0
  have hepos : 0 < dot3 (eastPre n) (eastPre n) := eastPre_dot_pos n hn
  have hene : eastPre n ≠ ⟨0, 0, 0⟩ := vec_ne_zero_of_dot3_pos _ hepos
  have he1 : dot3 (normalize (eastPre n)) (normalize (eastPre n)) = 1 :=
    dot3_normalize_self _ (ne_of_gt hepos)
  have hen : dot3 (normalize (eastPre n)) n = 0 :=
    dot3_normalize_left _ _ (eastPre_dot_normal n)
  have hnpos : 0 < dot3 (cross3 n (normalize (eastPre n)))
      (cross3 n (normalize (eastPre n))) := by
    rw [dot3_cross3_self, hn, he1]
    rw [dot3_comm] at hen
    rw [hen]
    norm_num
  have hnne : cross3 n (normalize (eastPre n)) ≠ ⟨0, 0, 0⟩ :=
    vec_ne_zero_of_dot3_pos _ hnpos
  have hn1 : dot3 (normalize (cross3 n (normalize (eastPre n))))
      (normalize (cross3 n (normalize (eastPre n)))) = 1 :=
    dot3_normalize_self _ (ne_of_gt hnpos)
  have hnn : dot3 (normalize (cross3 n (normalize (eastPre n)))) n = 0 :=
    dot3_normalize_left _ _ (cross3_dot_left _ _)
  have hne2 : dot3 (normalize (cross3 n (normalize (eastPre n))))
      (normalize (eastPre n)) = 0 :=
    dot3_normalize_left _ _ (cross3_dot_right _ _)
  have hTF : tangentFrame pos =
      (normalize (eastPre n), normalize (cross3 n (normalize (eastPre n))), n) := rfl
  refine ⟨fun hsm => ⟨?_, ?_⟩, hene, hnne, ?_, ?_, ?_, ?_, ?_, ?_⟩
  · unfold eastPre
    dsimp only
    rw [if_pos hsm]
  · have heq : eastPre n = cross3 ⟨0, 0, 1⟩ n := by
      unfold eastPre
      dsimp only
      rw [if_pos hsm]
    rw [← heq]
    exact hene
  · rw [hTF]
    exact he1
  · rw [hTF]
    exact hn1
  · rw [hTF]
    exact hn
  · rw [hTF]
    exact hen
  · rw [hTF]
    exact hnn
  · rw [hTF]
    rw [dot3_comm]
    exact hne2

/-- Witness for C9 at latitude 0, longitude 0, altitude 0.15. -/
theorem tangentFrame_well_defined_witness :
    let pos := latLonToVector3 0 0 SPHERE_RADIUS 0.15
    let n := normalize pos
    (normSq3 (cross3 ⟨0, 1, 0⟩ n) < 1e-6 →
      eastPre n = cross3 ⟨0, 0, 1⟩ n ∧ cross3 ⟨0, 0, 1⟩ n ≠ ⟨0, 0, 0⟩) ∧
    eastPre n ≠ ⟨0, 0, 0⟩ ∧
    cross3 n (normalize (eastPre n)) ≠ ⟨0, 0, 0⟩ ∧
    dot3 (tangentFrame pos).1 (tangentFrame pos).1 = 1 ∧
    dot3 (tangentFrame pos).2.1 (tangentFrame pos).2.1 = 1 ∧
    dot3 (tangentFrame pos).2.2 (tangentFrame pos).2.2 = 1 ∧
    dot3 (tangentFrame pos).1 (tangentFrame pos).2.2 = 0 ∧
    dot3 (tangentFrame pos).2.1 (tangentFrame pos).2.2 = 0 ∧
    dot3 (tangentFrame pos).1 (tangentFrame pos).2.1 = 0 :=
  tangentFrame_well_defined 0 0 0.15 (by unfold SPHERE_RADIUS; norm_num)

end Globe
